import Mathlib

/-!
# Shallow embedding of the audio-kaleidoscope renderer

This file embeds the per-frame logic of `src/components/KaleidoscopeVisualizer.tsx`
(the `draw` callback of the animation loop) and proves the specified properties
about it.

JavaScript numbers are modelled by exact rationals `ℚ` for the linear arithmetic
(energy, rolling average, beat boost, rotation, indices) and by reals `ℝ` where
the code uses the transcendental `Math.pow(bin, 1.3)` (bar geometry).
The frequency-data buffer (`Uint8Array`) is modelled as a `List ℕ` of byte
values; an unbound analyser is the `none` case of an `Option`.
-/

namespace Kaleido

/-- User parameters of the visualizer that the `draw` callback reads
(`VisualParams` in the source; the analyser-only fields `smoothing`/`fftSize`
and the color fields do not enter the properties below and are omitted). -/
structure VisualParams where
  segments : ℚ
  rotationSpeed : ℚ
  sensitivity : ℚ
  mirror : Bool

/-- Mutable state persisting across frames: `rotationRef.current`,
`beatEnergyAvgRef.current` and the loop-local `lastTime`. -/
structure DrawState where
  rotation : ℚ
  beatAvg : ℚ
  lastTime : ℚ

/-- Per-frame input: the `now` timestamp passed to `draw`, and the analyser's
frequency data (`none` when no analyser/source is bound). -/
structure FrameInput where
  now : ℚ
  freqData : Option (List ℕ)

/-- `Math.max(2, Math.min(48, Math.floor(params.segments)))` (source line 205). -/
def segCount (segments : ℚ) : ℤ :=
  max 2 (min 48 ⌊segments⌋)

/-- `sum / freqData.length / 255` (source lines 187-189): the mean of the byte
spectrum normalized to `[0,1]`. -/
def energyOf (fd : List ℕ) : ℚ :=
  ((fd.sum : ℚ) / (fd.length : ℚ)) / 255

/-- One beat-estimator update (source lines 190-196):
`avg = prev·0.9 + energy·0.1`, `boost = max(0, energy − avg)·2.2`.
Returns `(new average, beat boost)`. -/
def beatUpdate (prev energy : ℚ) : ℚ × ℚ :=
  let avg := prev * (9/10) + energy * (1/10)
  (avg, max 0 (energy - avg) * (11/5))

/-- `dt = Math.min(0.05, (now - lastTime) / 1000)` (source line 173). -/
def dtOf (now last : ℚ) : ℚ :=
  min (1/20) ((now - last) / 1000)

/-- The energy/beat section of `draw` (source lines 182-197): when no analyser
data is bound, `energy` and `beatBoost` keep their initial value `0` and the
rolling average is not touched; otherwise the beat estimator runs.
Returns `(energy, new rolling average, beatBoost)`. -/
def stepEnergyBoost (avg : ℚ) (fd : Option (List ℕ)) : ℚ × ℚ × ℚ :=
  match fd with
  | none => (0, avg, 0)
  | some l => (energyOf l, (beatUpdate avg (energyOf l)).1, (beatUpdate avg (energyOf l)).2)

/-- The state evolution of one `draw` call (source lines 173-199):
`rotation += (params.rotationSpeed + beatBoost·0.8)·dt`, rolling average
updated by the beat estimator, `lastTime = now`.
Returns `(new state, energy, beatBoost)`. -/
def drawStep (p : VisualParams) (st : DrawState) (inp : FrameInput) :
    DrawState × ℚ × ℚ :=
  ({ rotation := st.rotation +
       (p.rotationSpeed + (stepEnergyBoost st.beatAvg inp.freqData).2.2 * (4/5)) *
         dtOf inp.now st.lastTime,
     beatAvg := (stepEnergyBoost st.beatAvg inp.freqData).2.1,
     lastTime := inp.now },
   (stepEnergyBoost st.beatAvg inp.freqData).1,
   (stepEnergyBoost st.beatAvg inp.freqData).2.2)

/-- Iterating `draw` over a sequence of frame inputs. -/
def drawIter (p : VisualParams) (inputs : ℕ → FrameInput) (st0 : DrawState) :
    ℕ → DrawState
  | 0 => st0
  | n + 1 => (drawStep p (drawIter p inputs st0 n) (inputs n)).1

/-- The rolling-average recurrence on its own (source line 193), iterated from a
start value over a sequence of frame energies: `a ← a·0.9 + eₙ·0.1`. -/
def beatAvgIter (e : ℕ → ℚ) (a0 : ℚ) : ℕ → ℚ
  | 0 => a0
  | n + 1 => (beatUpdate (beatAvgIter e a0 n) (e n)).1

/-- The beat boost (peak signal) emitted on frame `n` of the iterated estimator:
the boost computed by the update that turns state `n` into state `n+1`. -/
def beatPeakAt (e : ℕ → ℚ) (a0 : ℚ) (n : ℕ) : ℚ :=
  (beatUpdate (beatAvgIter e a0 n) (e n)).2

/-- `t = j / (bars - 1)` with `bars = 96` (source lines 207, 230). -/
def barT (j : ℕ) : ℚ :=
  (j : ℚ) / 95

/-- `Math.min(freqData.length - 1, Math.floor(t * freqData.length))`
(source line 237): the spectrum index sampled for a bar at fraction `t`. -/
def specIndex (t : ℚ) (L : ℕ) : ℤ :=
  min ((L : ℤ) - 1) ⌊t * (L : ℚ)⌋

/-- `bin` for a bar at fraction `t` (source lines 234-239): `0` when no
frequency data is bound, else `freqData[idx] / 255`. -/
def binOf (fd : Option (List ℕ)) (t : ℚ) : ℚ :=
  match fd with
  | none => 0
  | some l => (l.getD (specIndex t l.length).toNat 0 : ℚ) / 255

/-- `Math.min(width, height)` (source line 169). -/
def minDim (w h : ℚ) : ℚ :=
  min w h

/-- `innerRadius = minDim * 0.06` (source line 170). -/
def innerRadius (w h : ℚ) : ℚ :=
  minDim w h * (3/50)

/-- `maxRadius = minDim * 0.48` (source line 171). -/
def maxRadius (w h : ℚ) : ℚ :=
  minDim w h * (12/25)

/-- `mag = Math.pow(bin, 1.3) * params.sensitivity` (source line 241). -/
noncomputable def magOf (bin sens : ℝ) : ℝ :=
  Real.rpow bin (13/10) * sens

/-- `r0 = innerRadius * (0.8 + energy * 0.4)` (source line 242): the bar's inner
radius for the frame's energy. -/
def r0Of (w h energy : ℚ) : ℚ :=
  innerRadius w h * (4/5 + energy * (2/5))

/-- `r1 = r0 + (maxRadius - r0) * Math.min(1.0, mag * (0.9 + beatBoost))`
(source line 243): the bar's outer radius. -/
noncomputable def r1Of (w h energy : ℚ) (mag boost : ℝ) : ℝ :=
  (r0Of w h energy : ℝ) + ((maxRadius w h : ℝ) - (r0Of w h energy : ℝ)) *
    min 1 (mag * (9/10 + (boost : ℝ)))

/-- The `(r0, r1)` radius pairs of the 96 bars drawn inside one wedge
(source lines 229-243). -/
noncomputable def wedgeBars (p : VisualParams) (fd : Option (List ℕ))
    (w h energy boost : ℚ) : List (ℝ × ℝ) :=
  (List.range 96).map fun j =>
    ((r0Of w h energy : ℝ),
     r1Of w h energy (magOf ((binOf fd (barT j) : ℚ) : ℝ) ((p.sensitivity : ℚ) : ℝ)) (boost : ℝ))

/-- One whole `draw` call (source lines 162-286): the state evolution together
with the bar geometry emitted for each of the `segCount` wedges. The bar radii
do not depend on the wedge index, only the wedge's rotation/mirror transform
does, so each wedge contributes the same 96 `(r0, r1)` pairs. There is no
degenerate-surface guard in the source: the body runs for every `width` and
`height`. -/
noncomputable def renderFrame (p : VisualParams) (st : DrawState)
    (inp : FrameInput) (w h : ℚ) : DrawState × List (ℝ × ℝ) :=
  ((drawStep p st inp).1,
   List.flatten ((List.range (segCount p.segments).toNat).map fun _ =>
     wedgeBars p inp.freqData w h (drawStep p st inp).2.1 (drawStep p st inp).2.2))

/-! ## Helper lemmas -/

theorem stepEnergyBoost_nonneg (avg : ℚ) (fd : Option (List ℕ)) :
    0 ≤ (stepEnergyBoost avg fd).2.2 := by
  cases fd with
  | none => simp [stepEnergyBoost]
  | some l =>
    show 0 ≤ max 0 (energyOf l - _) * (11/5)
    exact mul_nonneg (le_max_left 0 _) (by norm_num)

theorem drawStep_lastTime (p : VisualParams) (st : DrawState) (inp : FrameInput) :
    (drawStep p st inp).1.lastTime = inp.now := rfl

theorem rotation_step_mono (p : VisualParams) (st : DrawState) (inp : FrameInput)
    (hs : 0 ≤ p.rotationSpeed) (ht : st.lastTime ≤ inp.now) :
    st.rotation ≤ (drawStep p st inp).1.rotation := by
  have hb := stepEnergyBoost_nonneg st.beatAvg inp.freqData
  have hdt : 0 ≤ dtOf inp.now st.lastTime :=
    le_min (by norm_num) (div_nonneg (by linarith) (by norm_num))
  have hstep : 0 ≤ (p.rotationSpeed + (stepEnergyBoost st.beatAvg inp.freqData).2.2 * (4/5)) *
      dtOf inp.now st.lastTime :=
    mul_nonneg (by nlinarith) hdt
  show st.rotation ≤ st.rotation + _
  linarith

theorem getD_eq_zero (l : List ℕ) (h : ∀ x ∈ l, x = 0) (n : ℕ) :
    l.getD n 0 = 0 := by
  induction l generalizing n with
  | nil => simp
  | cons a t ih =>
    cases n with
    | zero => simpa using h a (List.mem_cons_self a t)
    | succ m =>
      rw [List.getD_cons_succ]
      exact ih (fun x hx => h x (List.mem_cons_of_mem _ hx)) m

theorem energyOf_eq_zero (fd : List ℕ) (h : ∀ x ∈ fd, x = 0) : energyOf fd = 0 := by
  unfold energyOf
  rw [List.sum_eq_zero h]
  simp

/-! ## Claims -/

/-- C2: for every stored `segments` parameter, the segment count computed by the
renderer (`max(2, min(48, floor(segments)))`) lies within `[2, 48]`, even when
the stored value is outside that range. -/
theorem segCount_within_range (s : ℚ) :
    2 ≤ segCount s ∧ segCount s ≤ 48 :=
  ⟨le_max_left _ _, max_le (by norm_num) (min_le_left _ _)⟩

/-- C9: the rolling energy average stays in `[0,1]`: starting from `0`, if every
frame's energy lies in `[0,1]`, then after every update
`avg ← avg·0.9 + energy·0.1` the average still lies in `[0,1]`. -/
theorem rollingAverage_invariant (e : ℕ → ℚ) (he : ∀ n, 0 ≤ e n ∧ e n ≤ 1) :
    ∀ n, 0 ≤ beatAvgIter e 0 n ∧ beatAvgIter e 0 n ≤ 1 := by
  intro n
  induction n with
  | zero => simp [beatAvgIter]
  | succ n ih =>
    obtain ⟨h1, h2⟩ := ih
    obtain ⟨h3, h4⟩ := he n
    have hstep : beatAvgIter e 0 (n + 1) = beatAvgIter e 0 n * (9/10) + e n * (1/10) := rfl
    rw [hstep]
    constructor <;> nlinarith

/-- Witness for C9 at the constant energy sequence `1/2` after three updates. -/
theorem rollingAverage_invariant_witness :
    0 ≤ beatAvgIter (fun _ => 1/2) 0 3 ∧ beatAvgIter (fun _ => 1/2) 0 3 ≤ 1 :=
  rollingAverage_invariant (fun _ => 1/2) (fun _ => by norm_num) 3

/-- C10: for every bar fraction `t ∈ [0,1]` and non-empty spectrum of length
`L`, the index actually used to read the spectrum is `min(L−1, ⌊t·L⌋)`, which
lies within `[0, L−1]` — in-bounds even at `t = 1`. -/
theorem specIndex_in_bounds (t : ℚ) (L : ℕ) (h0 : 0 ≤ t) (h1 : t ≤ 1) (hL : 0 < L) :
    specIndex t L = min ((L : ℤ) - 1) ⌊t * (L : ℚ)⌋ ∧
    0 ≤ specIndex t L ∧ specIndex t L ≤ (L : ℤ) - 1 := by
  refine ⟨rfl, le_min (by omega) ?_, min_le_left _ _⟩
  exact Int.floor_nonneg.mpr (mul_nonneg h0 (by positivity))

/-- Witness for C10 at `t = 1`, `L = 4`. -/
theorem specIndex_in_bounds_witness :
    specIndex 1 4 = min ((4 : ℤ) - 1) ⌊(1 : ℚ) * ((4 : ℕ) : ℚ)⌋ ∧
    0 ≤ specIndex 1 4 ∧ specIndex 1 4 ≤ (4 : ℤ) - 1 :=
  specIndex_in_bounds 1 4 (by norm_num) (by norm_num) (by norm_num)

/-- C3 counterexample: the last bar has fraction `t = 1` (which lies in the
claimed domain `[0,1]`), and there the index used by the code is
`min(L−1, ⌊t·L⌋) = L−1`, not `⌊t·L⌋ = L`: for `L = 4` the code reads index `3`
while `⌊1·4⌋ = 4`. -/
theorem specIndex_eq_floor_counterexample :
    (0 ≤ barT 95 ∧ barT 95 ≤ 1) ∧
    specIndex (barT 95) 4 ≠ ⌊barT 95 * ((4 : ℕ) : ℚ)⌋ := by
  have ht : barT 95 = 1 := by norm_num [barT]
  rw [ht]
  refine ⟨⟨by norm_num, by norm_num⟩, ?_⟩
  unfold specIndex
  rw [one_mul, Int.floor_natCast]
  norm_num

/-- C3 amended: the index used to sample a bar's magnitude is
`min(L−1, ⌊t·L⌋)`; it equals `⌊t·L⌋` for every `t ∈ [0,1)`, and at `t = 1` it
is clamped to `L−1`. -/
theorem specIndex_eq_floor_amended (t : ℚ) (L : ℕ) (hL : 0 < L) :
    specIndex t L = min ((L : ℤ) - 1) ⌊t * (L : ℚ)⌋ ∧
    (0 ≤ t → t < 1 → specIndex t L = ⌊t * (L : ℚ)⌋) ∧
    specIndex 1 L = (L : ℤ) - 1 := by
  refine ⟨rfl, ?_, ?_⟩
  · intro h0 h1
    apply min_eq_right
    have hLQ : (0 : ℚ) < (L : ℚ) := by exact_mod_cast hL
    have hlt : t * (L : ℚ) < (((L : ℤ) : ℚ)) := by push_cast; nlinarith
    have := Int.floor_lt.mpr hlt
    omega
  · show min ((L : ℤ) - 1) ⌊(1 : ℚ) * (L : ℚ)⌋ = (L : ℤ) - 1
    rw [one_mul, Int.floor_natCast]
    exact min_eq_left (by omega)

/-- Witness for the amended C3 at `t = 1/2`, `L = 4`. -/
theorem specIndex_eq_floor_amended_witness :
    specIndex (1/2) 4 = min ((4 : ℤ) - 1) ⌊(1/2 : ℚ) * ((4 : ℕ) : ℚ)⌋ ∧
    (0 ≤ (1/2 : ℚ) → (1/2 : ℚ) < 1 → specIndex (1/2) 4 = ⌊(1/2 : ℚ) * ((4 : ℕ) : ℚ)⌋) ∧
    specIndex 1 4 = (4 : ℤ) - 1 :=
  specIndex_eq_floor_amended (1/2) 4 (by norm_num)

/-- C4: across every sequence of frames with non-decreasing timestamps, if
`rotationSpeed ≥ 0` then the rotation state is monotonically non-decreasing
(the beat boost added to the speed is `≥ 0` by construction, and so is the
clamped `dt`). -/
theorem rotation_monotone (p : VisualParams) (inputs : ℕ → FrameInput) (st0 : DrawState)
    (hs : 0 ≤ p.rotationSpeed)
    (h0 : st0.lastTime ≤ (inputs 0).now)
    (hmono : ∀ n, (inputs n).now ≤ (inputs (n + 1)).now) :
    Monotone (fun n => (drawIter p inputs st0 n).rotation) := by
  have hlast : ∀ n, (drawIter p inputs st0 n).lastTime ≤ (inputs n).now := by
    intro n
    induction n with
    | zero => exact h0
    | succ n _ =>
      have hn : (drawIter p inputs st0 (n + 1)).lastTime = (inputs n).now := rfl
      rw [hn]
      exact hmono n
  apply monotone_nat_of_le_succ
  intro n
  exact rotation_step_mono p (drawIter p inputs st0 n) (inputs n) hs (hlast n)

/-- Witness for C4: frames every 16 time units with no audio bound, default-like
parameters; rotation after frame 0 is at most rotation after frame 3. -/
theorem rotation_monotone_witness :
    (drawIter ⟨12, 7/20, 6/5, true⟩ (fun n => ⟨(n : ℚ) * 16, none⟩) ⟨0, 0, 0⟩ 0).rotation ≤
    (drawIter ⟨12, 7/20, 6/5, true⟩ (fun n => ⟨(n : ℚ) * 16, none⟩) ⟨0, 0, 0⟩ 3).rotation :=
  rotation_monotone ⟨12, 7/20, 6/5, true⟩ (fun n => ⟨(n : ℚ) * 16, none⟩) ⟨0, 0, 0⟩
    (by norm_num) (by norm_num)
    (fun n => by push_cast; linarith) (by norm_num : (0 : ℕ) ≤ 3)

/-- C5: if the beat estimator processes a frame of energy `0` from any rolling
average in `[0,1]`, and the next frame has energy `1`, then the beat boost
(peak) computed on the transition frame is strictly positive. -/
theorem peak_positive_on_jump (a : ℚ) (h0 : 0 ≤ a) (h1 : a ≤ 1) :
    0 < (beatUpdate (beatUpdate a 0).1 1).2 := by
  have e1 : (beatUpdate a 0).1 = a * (9/10) + 0 * (1/10) := rfl
  have e2 : (beatUpdate (a * (9/10) + 0 * (1/10)) 1).2 =
      max 0 (1 - ((a * (9/10) + 0 * (1/10)) * (9/10) + 1 * (1/10))) * (11/5) := rfl
  rw [e1, e2]
  have key : (0 : ℚ) < 1 - ((a * (9/10) + 0 * (1/10)) * (9/10) + 1 * (1/10)) := by nlinarith
  rw [max_eq_right key.le]
  nlinarith

/-- Witness for C5 starting from rolling average `1/2`. -/
theorem peak_positive_on_jump_witness :
    0 < (beatUpdate (beatUpdate (1/2) 0).1 1).2 :=
  peak_positive_on_jump (1/2) (by norm_num) (by norm_num)

/-- C1: feeding the beat estimator a constant energy `c ∈ [0,1]` makes the
rolling average converge to `c` — the error after `n` updates is exactly
`0.9^n` times the initial error — and makes the peak signal (which equals
`2.2 · 0.9^(n+1) · max 0 (c − a₀)` on frame `n`) converge to `0`. -/
theorem beat_const_convergence (c a0 : ℚ) (hc0 : 0 ≤ c) (hc1 : c ≤ 1) :
    (∀ n, c - beatAvgIter (fun _ => c) a0 n = (9/10) ^ n * (c - a0)) ∧
    Filter.Tendsto (fun n => ((beatAvgIter (fun _ => c) a0 n : ℚ) : ℝ))
      Filter.atTop (nhds ((c : ℚ) : ℝ)) ∧
    (∀ n, beatPeakAt (fun _ => c) a0 n = (11/5) * ((9/10) ^ (n + 1) * max 0 (c - a0))) ∧
    Filter.Tendsto (fun n => ((beatPeakAt (fun _ => c) a0 n : ℚ) : ℝ))
      Filter.atTop (nhds 0) := by
  have herr : ∀ n, c - beatAvgIter (fun _ => c) a0 n = (9/10 : ℚ) ^ n * (c - a0) := by
    intro n
    induction n with
    | zero => simp [beatAvgIter]
    | succ n ih =>
      have hstep : beatAvgIter (fun _ => c) a0 (n + 1)
          = beatAvgIter (fun _ => c) a0 n * (9/10) + c * (1/10) := rfl
      rw [hstep]
      linear_combination (9/10 : ℚ) * ih
  have hpeak : ∀ n, beatPeakAt (fun _ => c) a0 n
      = (11/5) * ((9/10) ^ (n + 1) * max 0 (c - a0)) := by
    intro n
    have hb : beatPeakAt (fun _ => c) a0 n
        = max 0 (c - beatAvgIter (fun _ => c) a0 (n + 1)) * (11/5) := rfl
    have hmax : (9/10 : ℚ) ^ (n + 1) * max 0 (c - a0)
        = max 0 ((9/10 : ℚ) ^ (n + 1) * (c - a0)) := by
      rw [mul_max_of_nonneg _ _ (by positivity : (0:ℚ) ≤ (9/10 : ℚ) ^ (n + 1))]
      rw [mul_zero]
    rw [hb, herr (n + 1), hmax]
    ring
  have hk : Filter.Tendsto (fun n : ℕ => (9/10 : ℝ) ^ n) Filter.atTop (nhds 0) :=
    tendsto_pow_atTop_nhds_zero_of_lt_one (by norm_num) (by norm_num)
  have havg : ∀ n, ((beatAvgIter (fun _ => c) a0 n : ℚ) : ℝ)
      = ((c : ℚ) : ℝ) - (9/10 : ℝ) ^ n * (((c : ℚ) : ℝ) - ((a0 : ℚ) : ℝ)) := by
    intro n
    have h2 := congrArg (fun q : ℚ => (q : ℝ)) (herr n)
    push_cast at h2
    linarith
  refine ⟨herr, ?_, hpeak, ?_⟩
  · have h1 : Filter.Tendsto
        (fun n : ℕ => ((c : ℚ) : ℝ) - (9/10 : ℝ) ^ n * (((c : ℚ) : ℝ) - ((a0 : ℚ) : ℝ)))
        Filter.atTop (nhds (((c : ℚ) : ℝ) - 0 * (((c : ℚ) : ℝ) - ((a0 : ℚ) : ℝ)))) :=
      (hk.mul_const _).const_sub _
    rw [zero_mul, sub_zero] at h1
    exact Filter.Tendsto.congr (fun n => (havg n).symm) h1
  · have hpk : ∀ n, ((beatPeakAt (fun _ => c) a0 n : ℚ) : ℝ)
        = (11/5 : ℝ) * ((9/10 : ℝ) ^ (n + 1) * max 0 (((c : ℚ) : ℝ) - ((a0 : ℚ) : ℝ))) := by
      intro n
      have h2 := congrArg (fun q : ℚ => (q : ℝ)) (hpeak n)
      push_cast at h2
      exact h2
    have hk1 : Filter.Tendsto (fun n : ℕ => (9/10 : ℝ) ^ (n + 1)) Filter.atTop (nhds 0) := by
      have h3 := hk.mul_const (9/10 : ℝ)
      rw [zero_mul] at h3
      exact h3.congr (fun n => (pow_succ _ _).symm)
    have h4 := (hk1.mul_const (max 0 (((c : ℚ) : ℝ) - ((a0 : ℚ) : ℝ)))).const_mul (11/5 : ℝ)
    rw [zero_mul, mul_zero] at h4
    exact Filter.Tendsto.congr (fun n => (hpk n).symm) h4

/-- Witness for C1 at constant energy `c = 1/2` from initial average `0`. -/
theorem beat_const_convergence_witness :
    (∀ n, (1/2 : ℚ) - beatAvgIter (fun _ => 1/2) 0 n = (9/10) ^ n * ((1/2 : ℚ) - 0)) ∧
    Filter.Tendsto (fun n => ((beatAvgIter (fun _ => 1/2) 0 n : ℚ) : ℝ))
      Filter.atTop (nhds (((1/2 : ℚ) : ℝ))) ∧
    (∀ n, beatPeakAt (fun _ => 1/2) 0 n
      = (11/5) * ((9/10) ^ (n + 1) * max 0 ((1/2 : ℚ) - 0))) ∧
    Filter.Tendsto (fun n => ((beatPeakAt (fun _ => 1/2) 0 n : ℚ) : ℝ))
      Filter.atTop (nhds 0) :=
  beat_const_convergence (1/2) 0 (by norm_num) (by norm_num)

/-- C6: when no audio source/analyser is bound (`freqData = none`), a frame is
treated as silence: the computed energy and beat boost are `0`, every bar's
spectral magnitude is `0`, and the renderer still produces a full frame
(`segCount · 96` bar draw commands) — the functions are total, so no error is
raised. -/
theorem silent_frame_degrades_gracefully (p : VisualParams) (st : DrawState) (now w h : ℚ) :
    (drawStep p st ⟨now, none⟩).2.1 = 0 ∧
    (drawStep p st ⟨now, none⟩).2.2 = 0 ∧
    (∀ j : ℕ, magOf ((binOf none (barT j) : ℚ) : ℝ) ((p.sensitivity : ℚ) : ℝ) = 0) ∧
    (renderFrame p st ⟨now, none⟩ w h).2.length = (segCount p.segments).toNat * 96 := by
  refine ⟨rfl, rfl, ?_, ?_⟩
  · intro j
    show magOf ((0 : ℚ) : ℝ) _ = 0
    unfold magOf
    rw [Rat.cast_zero, Real.rpow_eq_pow, Real.zero_rpow (by norm_num), zero_mul]
  · simp [renderFrame, wedgeBars, List.length_flatten, List.map_map, Function.comp,
      List.map_const, List.sum_replicate, smul_eq_mul, Nat.mul_comm]

/-- C7 counterexample: the source has no degenerate-surface guard. On a frame
with `width = height = 0` (default parameters, no audio, 16 time units after
the previous frame) the renderer does not skip: rotation still advances by
`0.35 · 0.016 = 7/1250 ≠ 0` and `12 · 96 = 1152` bar draw commands are still
emitted. -/
theorem degenerate_surface_not_skipped :
    (renderFrame ⟨12, 7/20, 6/5, true⟩ ⟨0, 0, 0⟩ ⟨16, none⟩ 0 0).1.rotation = 7/1250 ∧
    (7/1250 : ℚ) ≠ 0 ∧
    (renderFrame ⟨12, 7/20, 6/5, true⟩ ⟨0, 0, 0⟩ ⟨16, none⟩ 0 0).2.length = 1152 := by
  refine ⟨?_, by norm_num, ?_⟩
  · show (0 : ℚ) + (7/20 + (stepEnergyBoost 0 none).2.2 * (4/5)) * dtOf 16 0 = 7/1250
    norm_num [stepEnergyBoost, dtOf]
  · simp [renderFrame, wedgeBars, List.length_flatten, List.map_map, Function.comp,
      List.map_const, List.sum_replicate, smul_eq_mul, segCount]

/-- C7 amended: on a degenerate surface (`width = 0` or `height = 0`) the
renderer does not skip the frame: it runs without error and evolves the state
exactly as on any other frame; all bar radii are `0` (inner and outer), so
every drawn primitive has zero extent and nothing is visible. -/
theorem degenerate_surface_zero_extent (p : VisualParams) (st : DrawState) (inp : FrameInput)
    (w h : ℚ) (hw : 0 ≤ w) (hh : 0 ≤ h) (hdeg : w = 0 ∨ h = 0) :
    (renderFrame p st inp w h).1 = (drawStep p st inp).1 ∧
    ∀ pr ∈ (renderFrame p st inp w h).2, pr.1 = 0 ∧ pr.2 = 0 := by
  have hmin : minDim w h = 0 := by
    unfold minDim
    rcases hdeg with rfl | rfl
    · exact min_eq_left hh
    · exact min_eq_right hw
  have hr0 : ∀ e : ℚ, r0Of w h e = 0 := by
    intro e
    unfold r0Of innerRadius
    rw [hmin]
    ring
  have hmaxR : maxRadius w h = 0 := by
    unfold maxRadius
    rw [hmin]
    ring
  refine ⟨rfl, ?_⟩
  intro pr hpr
  simp only [renderFrame, List.mem_flatten, List.mem_map] at hpr
  obtain ⟨l, ⟨⟨x, _, rfl⟩, hl⟩⟩ := hpr
  simp only [wedgeBars, List.mem_map] at hl
  obtain ⟨j, _, rfl⟩ := hl
  constructor
  · rw [hr0]
    exact Rat.cast_zero
  · show r1Of w h _ _ _ = 0
    unfold r1Of
    rw [hr0, hmaxR]
    push_cast
    ring

/-- Witness for the amended C7: width `0`, height `5`, default-like parameters,
no audio. -/
theorem degenerate_surface_zero_extent_witness :
    (renderFrame ⟨12, 7/20, 6/5, true⟩ ⟨0, 0, 0⟩ ⟨16, none⟩ 0 5).1 =
      (drawStep ⟨12, 7/20, 6/5, true⟩ ⟨0, 0, 0⟩ ⟨16, none⟩).1 ∧
    ∀ pr ∈ (renderFrame ⟨12, 7/20, 6/5, true⟩ ⟨0, 0, 0⟩ ⟨16, none⟩ 0 5).2,
      pr.1 = 0 ∧ pr.2 = 0 :=
  degenerate_surface_zero_extent ⟨12, 7/20, 6/5, true⟩ ⟨0, 0, 0⟩ ⟨16, none⟩ 0 5
    (by norm_num) (by norm_num) (Or.inl rfl)

/-- C8: on a frame whose bound spectrum is all zeros (and non-empty), the
computed energy is `0` and every rendered bar's outer radius equals its inner
radius, which sits at the energy-`0` minimum `innerRadius · 0.8`. -/
theorem all_zero_spectrum_bars_collapse (p : VisualParams) (st : DrawState) (now w h : ℚ)
    (fd : List ℕ) (hfd : ∀ x ∈ fd, x = 0) (hL : 0 < fd.length) :
    (drawStep p st ⟨now, some fd⟩).2.1 = 0 ∧
    ∀ pr ∈ (renderFrame p st ⟨now, some fd⟩ w h).2,
      pr.2 = pr.1 ∧ pr.1 = ((innerRadius w h : ℚ) : ℝ) * (4/5) := by
  have hE : energyOf fd = 0 := energyOf_eq_zero fd hfd
  have hEdraw : (drawStep p st ⟨now, some fd⟩).2.1 = energyOf fd := rfl
  have hbin : ∀ t : ℚ, binOf (some fd) t = 0 := by
    intro t
    show ((fd.getD (specIndex t fd.length).toNat 0 : ℕ) : ℚ) / 255 = 0
    rw [getD_eq_zero fd hfd]
    norm_num
  refine ⟨hEdraw.trans hE, ?_⟩
  intro pr hpr
  simp only [renderFrame, List.mem_flatten, List.mem_map] at hpr
  obtain ⟨l, ⟨⟨x, _, rfl⟩, hl⟩⟩ := hpr
  simp only [wedgeBars, List.mem_map] at hl
  obtain ⟨j, _, rfl⟩ := hl
  have hmag : magOf ((binOf (some fd) (barT j) : ℚ) : ℝ) ((p.sensitivity : ℚ) : ℝ) = 0 := by
    rw [hbin]
    unfold magOf
    rw [Rat.cast_zero, Real.rpow_eq_pow, Real.zero_rpow (by norm_num), zero_mul]
  constructor
  · show r1Of w h _ _ _ = _
    unfold r1Of
    rw [hmag, zero_mul]
    rw [min_eq_right (by norm_num : (0:ℝ) ≤ 1)]
    ring_nf
  · show ((r0Of w h (drawStep p st ⟨now, some fd⟩).2.1 : ℚ) : ℝ) = _
    rw [hEdraw, hE]
    unfold r0Of
    push_cast
    ring

/-- Witness for C8 with the all-zero three-bin spectrum. -/
theorem all_zero_spectrum_bars_collapse_witness :
    (drawStep ⟨12, 7/20, 6/5, true⟩ ⟨0, 0, 0⟩ ⟨16, some [0, 0, 0]⟩).2.1 = 0 ∧
    ∀ pr ∈ (renderFrame ⟨12, 7/20, 6/5, true⟩ ⟨0, 0, 0⟩ ⟨16, some [0, 0, 0]⟩ 640 480).2,
      pr.2 = pr.1 ∧ pr.1 = ((innerRadius 640 480 : ℚ) : ℝ) * (4/5) :=
  all_zero_spectrum_bars_collapse ⟨12, 7/20, 6/5, true⟩ ⟨0, 0, 0⟩ 16 640 480 [0, 0, 0]
    (by simp) (by norm_num)

end Kaleido
